import Mathlib

/-!
Verification development for the `pypiserver` application layer
(`pypiserver/_app.py`).

The handlers of `_app.py` are embedded as pure Lean functions.  Collaborators
that live outside the provided sources are made explicit:

* the backend (`config.backend`) is passed in as query functions
  (`backend_exists`, `find_version`, `find_project_packages`), and its
  mutations (`add_package`, `remove_package`) are recorded in an effect
  trace returned alongside the HTTP outcome;
* the filename parser `guess_pkgname_and_version` (from
  `pypiserver.pkg_helpers`, not among the provided sources) is passed in as
  a function `guess : String -> Option (String × String)` returning the
  (pkgname, version) pair or `none` on parse failure;
* the name normalizer `normalize_pkgname_for_url` (same module) is modelled
  from the specification, see its doc comment;
* `parsed_version` values are taken from an arbitrary linear order `V`
  (the version comparator of the `packaging` library is consumed by the
  handlers only as a sort key);
* Python's builtin `sorted`, a stable sort, is modelled by a stable
  insertion sort defined below.

HTTP outcomes are values of `HResp`: a success carrying the handler value,
an `HTTPError` status (with a flag recording the `WWW-Authenticate: Basic`
header of the 401 response), or a redirect with status and location.
-/

/-- Outcome of a bottle handler: success value, `HTTPError(status)` (the
Bool records whether a `WWW-Authenticate: Basic` header is attached, as in
the 401 raised by `auth`), or `redirect(location, status)`. -/
inductive HResp (α : Type) where
  | ok (val : α)
  | err (status : Nat) (wwwAuthBasic : Bool)
  | redirect (status : Nat) (location : String)
deriving DecidableEq

/-- A mutation of the package catalog requested by a handler:
`config.backend.add_package(fname, stream)` or
`config.backend.remove_package(pkg)`.  `P` is the type of package entries
returned by backend queries. -/
inductive Effect (P : Type) where
  | add_package (fname : String)
  | remove_package (pkg : P)
deriving DecidableEq

/-- Character class of the upload-filename regex
`_bottle_upload_filename_re = re.compile(r"^[a-z0-9_.!+-]+$", re.I)`
(`_app.py` line 106): ASCII letters (case-insensitive via `re.I`), digits,
and the punctuation `_ . ! + -`.  (Python's `re.IGNORECASE` additionally
lets a couple of exotic Unicode codepoints, e.g. U+212A KELVIN SIGN, match
the letter ranges; those are outside the scope of this model, which reads
the class over its ASCII meaning.) -/
def validClass (c : Char) : Bool :=
  ('a' ≤ c && c ≤ 'z') || ('A' ≤ c && c ≤ 'Z') || ('0' ≤ c && c ≤ '9') ||
  c == '_' || c == '.' || c == '!' || c == '+' || c == '-'

/-- `is_valid_pkg_filename` (`_app.py` lines 109-111):
`_bottle_upload_filename_re.match(fname) is not None`.

Python `re.match` anchors at the start, and without `re.MULTILINE` the `$`
anchor matches at the end of the string *or just before a newline at the
end of the string*.  Hence the regex accepts exactly the strings that,
after discarding a single trailing newline, are nonempty and consist of
characters of the class. -/
def is_valid_pkg_filename (fname : String) : Bool :=
  let core := if fname.data.getLast? = some '\n' then fname.data.dropLast else fname.data
  !core.isEmpty && core.all validClass

/-- The per-file filename check of the upload loop (`_app.py` lines 162-165):
`not is_valid_pkg_filename(f) or guess_pkgname_and_version(f) is None`,
here in positive form.  `&&` is short-circuiting, exactly as Python's `or`
in the source guards the parser behind the character check: when
`is_valid_pkg_filename` is `false` the result is `false` whatever `guess`
does. -/
def check_upload_filename (guess : String → Option (String × String)) (fname : String) : Bool :=
  is_valid_pkg_filename fname && (guess fname).isSome

/-- The `for uf in ufiles` loop of `file_upload` (`_app.py` lines 159-184),
applied to the raw filenames of the present files (absent files are skipped
by `if not uf: continue`).  Each file is checked
(`check_upload_filename`, else 400), then the duplicate check
`not config.overwrite and config.backend.exists(...)` (else 409), then
`config.backend.add_package(...)` is recorded.  An `HTTPError` raised on a
later file keeps the `add_package` effects already performed for earlier
files. -/
def process_upload_files (P : Type) (guess : String → Option (String × String))
    (overwrite : Bool) (backend_exists : String → Bool) :
    List String → HResp Unit × List (Effect P)
  | [] => (.ok (), [])
  | f :: rest =>
    if !(check_upload_filename guess f) then (.err 400 false, [])
    else if !overwrite && backend_exists f then (.err 409 false, [])
    else
      let r := process_upload_files P guess overwrite backend_exists rest
      (r.1, .add_package f :: r.2)

/-- `file_upload` (`_app.py` lines 144-184).  `content` and `gpg_signature`
carry the raw filenames of the two file-fields when present.  A missing
content file is a 400; a present signature whose filename differs from
`f"{content}.asc"` is a 400; then the two present files are processed in
order (content first). -/
def file_upload (P : Type) (guess : String → Option (String × String))
    (overwrite : Bool) (backend_exists : String → Bool)
    (content gpg_signature : Option String) : HResp Unit × List (Effect P) :=
  match content with
  | none => (.err 400 false, [])
  | some pk =>
    match gpg_signature with
    | some s =>
      if pk ++ ".asc" ≠ s then (.err 400 false, [])
      else process_upload_files P guess overwrite backend_exists [pk, s]
    | none => process_upload_files P guess overwrite backend_exists [pk]

/-- Python falsiness of an optional form field as used by
`if not name or not version` in `remove_pkg`: `request.forms.get` yields
`None` when the field is absent, and the empty string is falsy too. -/
def falsyField : Option String → Bool
  | none => true
  | some s => s.isEmpty

/-- `remove_pkg` (`_app.py` lines 127-138): 400 when `name` or `version`
is missing/empty, 404 when `config.backend.find_version(name, version)`
yields nothing, otherwise `config.backend.remove_package(pkg)` for each
returned entry. -/
def remove_pkg (P : Type) (find_version : String → String → List P)
    (name version : Option String) : HResp Unit × List (Effect P) :=
  if falsyField name || falsyField version then (.err 400 false, [])
  else
    match find_version (name.getD "") (version.getD "") with
    | [] => (.err 404 false, [])
    | p :: ps => (.ok (), (p :: ps).map Effect.remove_package)

/-- `doc_upload` (`_app.py` lines 114-124): 400 when the `content`
file-field is missing; the zip inspection (`zipfile.ZipFile` plus
`getinfo("index.html")`, an external library) is abstracted to a Bool
carried with the field: 400 when it fails. -/
def doc_upload (P : Type) (content : Option Bool) : HResp Unit × List (Effect P) :=
  match content with
  | none => (.err 400 false, [])
  | some good => if good then (.ok (), []) else (.err 400 false, [])

/-- The `auth` decorator (`_app.py` lines 32-49) around a handler whose
outcome is `result`.  `creds` is bottle's `request.auth`: `none` when no
credentials are supplied, otherwise `(user, password)` where the password
may itself be absent.  When `action` is in `config.authenticate`: missing
credentials or missing password give a 401 with a
`WWW-Authenticate: Basic realm="pypi"` header, a failing
`config.auther(user, password)` gives 403, and only a passing check reaches
the wrapped handler; otherwise the handler runs unchecked. -/
def auth_wrap (α : Type) (authenticate : List String) (auther : String → String → Bool)
    (action : String) (creds : Option (String × Option String)) (result : HResp α) : HResp α :=
  if action ∈ authenticate then
    match creds with
    | none => .err 401 true
    | some (_, none) => .err 401 true
    | some (u, some p) => if auther u p then result else .err 403 false
  else result

/-- Propagation of a sub-handler outcome through `update`: a raised
`HTTPError` (or redirect) passes through, a normal return falls through to
`return ""`.  Effects performed before the raise are kept. -/
def liftSub (P : Type) (r : HResp Unit × List (Effect P)) : HResp String × List (Effect P) :=
  match r with
  | (.ok _, effs) => (.ok "", effs)
  | (.err s h, effs) => (.err s h, effs)
  | (.redirect s l, effs) => (.redirect s l, effs)

/-- `update` (`_app.py` lines 187-206), the POST `/` dispatcher.  `action`
is `none` when the `:action` form field is absent (the `KeyError` branch);
`"verify"` and `"submit"` are ignored with a log line and succeed; the
three mutating actions dispatch to their handlers; anything else is a 400. -/
def update (P : Type) (guess : String → Option (String × String)) (overwrite : Bool)
    (backend_exists : String → Bool) (find_version : String → String → List P)
    (action : Option String) (doc_content : Option Bool)
    (name version : Option String) (content gpg_signature : Option String) :
    HResp String × List (Effect P) :=
  match action with
  | none => (.err 400 false, [])
  | some a =>
    if a = "verify" ∨ a = "submit" then (.ok "", [])
    else if a = "doc_upload" then liftSub P (doc_upload P doc_content)
    else if a = "remove_pkg" then liftSub P (remove_pkg P find_version name version)
    else if a = "file_upload" then
      liftSub P (file_upload P guess overwrite backend_exists content gpg_signature)
    else (.err 400 false, [])

/-- Separator characters collapsed by the name normalizer. -/
def isSepChar (c : Char) : Bool := c == '-' || c == '_' || c == '.'

/-- Collapse every run of separator characters into a single `-`; the Bool
records whether the previous character was a separator. -/
def collapseSeps : Bool → List Char → List Char
  | _, [] => []
  | prevSep, c :: rest =>
    if isSepChar c then
      if prevSep then collapseSeps true rest
      else '-' :: collapseSeps true rest
    else c :: collapseSeps false rest

/-- Modelled from the spec: `normalize_pkgname_for_url` from
`pypiserver.pkg_helpers`, a module not among the provided sources.
Spec 4.3: "Lowercases the input, then collapses any run of `.`, `_`, `-`
into a single `-`." -/
def normalize_pkgname_for_url (name : String) : String :=
  ⟨collapseSeps false (name.data.map Char.toLower)⟩

/-- A package entry as consumed by the listing handlers: the fields of the
backend's package objects that `_app.py` reads.  `parsed_version` lives in
an arbitrary linear order `V` (the handlers use it only as a sort key). -/
structure PkgFile (V : Type) where
  relfn : String
  version : String
  parsed_version : V
  fname_and_hash : String
deriving DecidableEq

/-- Code-point lexicographic comparison of character lists: Python's `<=`
on strings, used for the `x.relfn` tie-break of the `/simple/` sort key. -/
def charListLe : List Char → List Char → Bool
  | [], _ => true
  | _ :: _, [] => false
  | a :: as, b :: bs =>
    if a.toNat < b.toNat then true
    else if b.toNat < a.toNat then false
    else charListLe as bs

/-- Python `<=` on strings (code-point lexicographic). -/
def strle (s t : String) : Bool := charListLe s.data t.data

/-- The sort key of `simple` (`_app.py` line 313):
`key=lambda x: (x.parsed_version, x.relfn)`, ascending. -/
def pkgLe {V : Type} [LinearOrder V] (a b : PkgFile V) : Bool :=
  if a.parsed_version < b.parsed_version then true
  else if b.parsed_version < a.parsed_version then false
  else strle a.relfn b.relfn

/-- The sort key of `json_info` (`_app.py` lines 462-466):
`key=lambda x: x.parsed_version, reverse=True`, i.e. descending. -/
def pkgGe {V : Type} [LinearOrder V] (a b : PkgFile V) : Bool :=
  decide (b.parsed_version ≤ a.parsed_version)

/-- Insert `a` into `l` before the first element `b` with `le a b`. -/
def orderedInsert {α : Type} (le : α → α → Bool) (a : α) : List α → List α
  | [] => [a]
  | b :: l => if le a b then a :: b :: l else b :: orderedInsert le a l

/-- Stable insertion sort, the model of Python's builtin `sorted` (a stable
sort: elements with equal keys keep their original relative order). -/
def insertionSort {α : Type} (le : α → α → Bool) : List α → List α
  | [] => []
  | a :: l => orderedInsert le a (insertionSort le l)

/-- Strip trailing `/` characters: Python's `str.rstrip("/")`. -/
def rstripSlash (s : String) : String :=
  ⟨(s.data.reverse.dropWhile (fun c => c == '/')).reverse⟩

/-- `simple` (`_app.py` lines 303-372), the `/simple/:project/` handler.
A project segment that is not in normalized form is 301-redirected to the
normalized path before any backend access.  Otherwise the packages of the
project are sorted ascending by `(parsed_version, relfn)`; an empty result
redirects to the fallback index (status chosen by bottle from the request
protocol, here the parameter `fallback_code`) or is a 404 when the
fallback is disabled.  The HTML rendering is abstracted: the served
listing is represented by the ordered package sequence the template
iterates over. -/
def simple {V : Type} [LinearOrder V] (find_project_packages : String → List (PkgFile V))
    (disable_fallback : Bool) (fallback_url : String) (fallback_code : Nat)
    (project : String) : HResp (List (PkgFile V)) :=
  let normalized := normalize_pkgname_for_url project
  if project ≠ normalized then .redirect 301 ("/simple/" ++ normalized ++ "/")
  else
    let packages := insertionSort pkgLe (find_project_packages project)
    if packages.isEmpty then
      if !disable_fallback then
        .redirect fallback_code (rstripSlash fallback_url ++ "/" ++ project ++ "/")
      else .err 404 false
    else .ok packages

/-- Assignment `releases[k] = v` into a Python dict represented as an
association list in key-insertion order: an existing key keeps its
position and gets the new value, a new key is appended. -/
def dict_insert : List (String × String) → String → String → List (String × String)
  | [], k, v => [(k, v)]
  | (k1, v1) :: rest, k, v =>
    if k1 = k then (k1, v) :: rest else (k1, v1) :: dict_insert rest k v

/-- Dict lookup on the association-list representation. -/
def assocFind : List (String × String) → String → Option String
  | [], _ => none
  | (k1, v1) :: rest, k => if k1 = k then some v1 else assocFind rest k

/-- The `releases` dict of `json_info` (`_app.py` lines 472-477), built by
iterating the descending-sorted packages and assigning
`releases[x.version] = [{"url": urljoin(req_url, "../../packages/" + x.relfn)}]`.
The `urljoin(req_url, ...)` resolution (external urllib) is abstracted:
the stored value is the relative reference `"../../packages/" ++ relfn`,
which determines the single URL of the entry. -/
def build_releases {V : Type} (packages : List (PkgFile V)) : List (String × String) :=
  packages.foldl (fun acc x => dict_insert acc x.version ("../../packages/" ++ x.relfn)) []

/-- The JSON document of `json_info`: `info.version` and the `releases`
map (each release value is the single-element URL list, represented by the
one URL it holds). -/
structure ProjectJson where
  info_version : String
  releases : List (String × String)
deriving DecidableEq

/-- `json_info` (`_app.py` lines 454-480), the `/:project/json` handler.
A non-normalized project segment is 301-redirected before any backend
access.  Otherwise the packages are sorted descending by `parsed_version`;
an empty result is a 404; the first (greatest) package's `version` becomes
`info.version`, and the `releases` dict is built over the whole descending
sequence. -/
def json_info {V : Type} [LinearOrder V]
    (find_project_packages : String → List (PkgFile V)) (project : String) :
    HResp ProjectJson :=
  let normalized := normalize_pkgname_for_url project
  if project ≠ normalized then .redirect 301 ("/" ++ normalized ++ "/json")
  else
    match insertionSort pkgGe (find_project_packages project) with
    | [] => .err 404 false
    | p :: rest => .ok ⟨p.version, build_releases (p :: rest)⟩

theorem perm_orderedInsert {α : Type} (le : α → α → Bool) (a : α) (l : List α) :
    (orderedInsert le a l).Perm (a :: l) := by
  induction l with
  | nil => simp [orderedInsert]
  | cons b t ih =>
    simp only [orderedInsert]
    cases h : le a b with
    | true => simp
    | false =>
      simp only [Bool.false_eq_true, if_false]
      exact (ih.cons b).trans (List.Perm.swap a b t)

theorem perm_insertionSort {α : Type} (le : α → α → Bool) (l : List α) :
    (insertionSort le l).Perm l := by
  induction l with
  | nil => simp [insertionSort]
  | cons a t ih =>
    exact (perm_orderedInsert le a (insertionSort le t)).trans (ih.cons a)

theorem mem_orderedInsert {α : Type} (le : α → α → Bool) (a x : α) (l : List α) :
    x ∈ orderedInsert le a l ↔ x = a ∨ x ∈ l := by
  rw [(perm_orderedInsert le a l).mem_iff]
  simp

theorem sorted_orderedInsert {α : Type} (le : α → α → Bool)
    (htrans : ∀ a b c, le a b = true → le b c = true → le a c = true)
    (htotal : ∀ a b, le a b = true ∨ le b a = true) (a : α) (l : List α)
    (h : l.Pairwise (fun x y => le x y = true)) :
    (orderedInsert le a l).Pairwise (fun x y => le x y = true) := by
  induction l with
  | nil => simp [orderedInsert]
  | cons b t ih =>
    rw [List.pairwise_cons] at h
    obtain ⟨hbt, ht⟩ := h
    simp only [orderedInsert]
    by_cases hab : le a b = true
    · rw [if_pos hab, List.pairwise_cons]
      refine ⟨?_, List.pairwise_cons.mpr ⟨hbt, ht⟩⟩
      intro y hy
      rcases List.mem_cons.mp hy with hya | hyt
      · subst hya; exact hab
      · exact htrans a b y hab (hbt y hyt)
    · rw [if_neg hab, List.pairwise_cons]
      refine ⟨?_, ih ht⟩
      intro y hy
      rcases (mem_orderedInsert le a y t).mp hy with hya | hyt
      · rw [hya]
        rcases htotal a b with h1 | h1
        · exact absurd h1 hab
        · exact h1
      · exact hbt y hyt

theorem sorted_insertionSort {α : Type} (le : α → α → Bool)
    (htrans : ∀ a b c, le a b = true → le b c = true → le a c = true)
    (htotal : ∀ a b, le a b = true ∨ le b a = true) (l : List α) :
    (insertionSort le l).Pairwise (fun x y => le x y = true) := by
  induction l with
  | nil => simp [insertionSort]
  | cons a t ih => exact sorted_orderedInsert le htrans htotal a _ ih

theorem charListLe_total : ∀ s t : List Char, charListLe s t = true ∨ charListLe t s = true := by
  intro s
  induction s with
  | nil => intro t; left; cases t <;> rfl
  | cons a as ih =>
    intro t
    cases t with
    | nil => right; rfl
    | cons b bs =>
      simp only [charListLe]
      rcases Nat.lt_trichotomy a.toNat b.toNat with h | h | h
      · left; simp [h]
      · have h1 : ¬ a.toNat < b.toNat := by omega
        have h2 : ¬ b.toNat < a.toNat := by omega
        simp only [h1, h2, if_false]
        exact ih bs
      · right; simp [h]

theorem charListLe_cons_iff (a b : Char) (as bs : List Char) :
    charListLe (a :: as) (b :: bs) = true ↔
      a.toNat < b.toNat ∨ (a.toNat = b.toNat ∧ charListLe as bs = true) := by
  simp only [charListLe]
  by_cases h1 : a.toNat < b.toNat
  · simp [h1]
  · by_cases h2 : b.toNat < a.toNat
    · have h3 : a.toNat ≠ b.toNat := by omega
      simp [h1, h2, h3]
    · have h3 : a.toNat = b.toNat := by omega
      simp [h1, h2, h3]

theorem charListLe_trans :
    ∀ s t u : List Char, charListLe s t = true → charListLe t u = true →
      charListLe s u = true := by
  intro s
  induction s with
  | nil => intro t u _ _; cases u <;> rfl
  | cons a as ih =>
    intro t u hst htu
    cases t with
    | nil => simp [charListLe] at hst
    | cons b bs =>
      cases u with
      | nil => simp [charListLe] at htu
      | cons c cs =>
        rw [charListLe_cons_iff] at hst htu ⊢
        rcases hst with h1 | ⟨h1, hrec1⟩ <;> rcases htu with h2 | ⟨h2, hrec2⟩
        · left; omega
        · left; omega
        · left; omega
        · exact Or.inr ⟨by omega, ih bs cs hrec1 hrec2⟩

theorem strle_total (s t : String) : strle s t = true ∨ strle t s = true :=
  charListLe_total s.data t.data

theorem strle_trans (s t u : String) (h1 : strle s t = true) (h2 : strle t u = true) :
    strle s u = true :=
  charListLe_trans s.data t.data u.data h1 h2

theorem pkgLe_iff {V : Type} [LinearOrder V] (a b : PkgFile V) :
    pkgLe a b = true ↔
      a.parsed_version < b.parsed_version ∨
        (a.parsed_version = b.parsed_version ∧ strle a.relfn b.relfn = true) := by
  simp only [pkgLe]
  by_cases h1 : a.parsed_version < b.parsed_version
  · simp [h1]
  · by_cases h2 : b.parsed_version < a.parsed_version
    · have h3 : a.parsed_version ≠ b.parsed_version := ne_of_gt h2
      simp [h1, h2, h3]
    · have h3 : a.parsed_version = b.parsed_version :=
        le_antisymm (not_lt.mp h2) (not_lt.mp h1)
      simp [h1, h2, h3]

theorem pkgLe_total {V : Type} [LinearOrder V] (a b : PkgFile V) :
    pkgLe a b = true ∨ pkgLe b a = true := by
  rcases lt_trichotomy a.parsed_version b.parsed_version with h | h | h
  · left; rw [pkgLe_iff]; exact Or.inl h
  · rcases strle_total a.relfn b.relfn with hs | hs
    · left; rw [pkgLe_iff]; exact Or.inr ⟨h, hs⟩
    · right; rw [pkgLe_iff]; exact Or.inr ⟨h.symm, hs⟩
  · right; rw [pkgLe_iff]; exact Or.inl h

theorem pkgLe_trans {V : Type} [LinearOrder V] (a b c : PkgFile V)
    (hab : pkgLe a b = true) (hbc : pkgLe b c = true) : pkgLe a c = true := by
  rw [pkgLe_iff] at hab hbc ⊢
  rcases hab with h1 | ⟨h1, hs1⟩ <;> rcases hbc with h2 | ⟨h2, hs2⟩
  · exact Or.inl (h1.trans h2)
  · exact Or.inl (lt_of_lt_of_le h1 h2.le)
  · exact Or.inl (lt_of_le_of_lt h1.le h2)
  · exact Or.inr ⟨h1.trans h2, strle_trans _ _ _ hs1 hs2⟩

theorem pkgGe_total {V : Type} [LinearOrder V] (a b : PkgFile V) :
    pkgGe a b = true ∨ pkgGe b a = true := by
  simp only [pkgGe, decide_eq_true_iff]
  exact le_total b.parsed_version a.parsed_version

theorem pkgGe_trans {V : Type} [LinearOrder V] (a b c : PkgFile V)
    (hab : pkgGe a b = true) (hbc : pkgGe b c = true) : pkgGe a c = true := by
  simp only [pkgGe, decide_eq_true_iff] at hab hbc ⊢
  exact hbc.trans hab

theorem assocFind_dict_insert (acc : List (String × String)) (k v key : String) :
    assocFind (dict_insert acc k v) key =
      if k = key then some v else assocFind acc key := by
  induction acc with
  | nil => simp [dict_insert, assocFind]
  | cons hd rest ih =>
    obtain ⟨k1, v1⟩ := hd
    simp only [dict_insert]
    by_cases h : k1 = k
    · subst h
      by_cases hk : k1 = key <;> simp [assocFind, hk]
    · simp only [h, if_false, assocFind]
      by_cases h1 : k1 = key
      · have h2 : k ≠ key := fun hkk => h (h1.trans hkk.symm)
        simp [h1, h2]
      · simp [h1, ih]

theorem keys_dict_insert (acc : List (String × String)) (k v : String) :
    (dict_insert acc k v).map Prod.fst =
      if k ∈ acc.map Prod.fst then acc.map Prod.fst
      else acc.map Prod.fst ++ [k] := by
  induction acc with
  | nil => simp [dict_insert]
  | cons hd rest ih =>
    obtain ⟨k1, v1⟩ := hd
    simp only [dict_insert]
    by_cases h : k1 = k
    · subst h; simp
    · have h2 : k ≠ k1 := fun hkk => h hkk.symm
      simp [h, h2, ih]
      by_cases hmem : k ∈ rest.map Prod.fst <;> simp [hmem, h2]

theorem nodup_keys_dict_insert (acc : List (String × String)) (k v : String)
    (h : (acc.map Prod.fst).Nodup) :
    ((dict_insert acc k v).map Prod.fst).Nodup := by
  rw [keys_dict_insert]
  by_cases hk : k ∈ acc.map Prod.fst
  · simpa [hk] using h
  · simp only [hk, if_false]
    rw [List.nodup_append]
    exact ⟨h, List.nodup_singleton k,
      fun a ha hak => hk (by rwa [List.mem_singleton.mp hak] at ha)⟩

theorem nodup_keys_build_releases {V : Type} (xs : List (PkgFile V)) :
    ((build_releases xs).map Prod.fst).Nodup := by
  suffices h : ∀ acc : List (String × String), (acc.map Prod.fst).Nodup →
      ((xs.foldl
          (fun acc x => dict_insert acc x.version ("../../packages/" ++ x.relfn))
          acc).map Prod.fst).Nodup by
    exact h [] (by simp)
  induction xs with
  | nil => intro acc hacc; simpa using hacc
  | cons x rest ih =>
    intro acc hacc
    rw [List.foldl_cons]
    exact ih _ (nodup_keys_dict_insert _ _ _ hacc)

theorem assocFind_build_aux {V : Type} (key : String) :
    ∀ (xs : List (PkgFile V)) (acc : List (String × String)),
      assocFind
          (xs.foldl
            (fun acc x => dict_insert acc x.version ("../../packages/" ++ x.relfn))
            acc) key =
        match xs.reverse.find? (fun x => x.version == key) with
        | some x => some ("../../packages/" ++ x.relfn)
        | none => assocFind acc key := by
  intro xs
  induction xs with
  | nil => intro acc; simp
  | cons x rest ih =>
    intro acc
    rw [List.foldl_cons, ih, List.reverse_cons, List.find?_append]
    cases hfind : rest.reverse.find? (fun x => x.version == key) with
    | some y => simp [Option.orElse]
    | none =>
      simp only [Option.orElse, Option.none_orElse]
      rw [assocFind_dict_insert]
      by_cases h : x.version = key
      · have hb : (x.version == key) = true := beq_iff_eq.mpr h
        simp [List.find?, h, hb]
      · have hb : (x.version == key) = false := beq_eq_false_iff_ne.mpr h
        simp [List.find?, h, hb]

theorem assocFind_build_releases {V : Type} (xs : List (PkgFile V)) (key : String) :
    assocFind (build_releases xs) key =
      (xs.reverse.find? (fun x => x.version == key)).map
        (fun x => "../../packages/" ++ x.relfn) := by
  have h := assocFind_build_aux key xs []
  rw [build_releases, h]
  cases hf : xs.reverse.find? (fun x => x.version == key) <;> simp [assocFind]

/-- Claim C1 (amended).  For every uploaded file, the per-file check of
`file_upload` accepts only filenames accepted by `is_valid_pkg_filename`:
(i) when `is_valid_pkg_filename` rejects the filename (in particular when
it contains a character outside the class, other than a single tolerated
trailing newline), the request fails with 400 *for every possible parser*,
i.e. before `guess_pkgname_and_version` is ever consulted; (ii) a filename
that passes the character check but fails to parse is also rejected with
400; (iii) an accepted upload implies the filename passed both checks.
The amendment: because Python's `$` anchor also matches just before a
newline at the end of the string, a filename that is a valid-class string
followed by one trailing newline passes the character check, so its
rejection is up to the parser (see the counterexample). -/
theorem upload_filename_validation (fname : String)
    (guess : String → Option (String × String)) (overwrite : Bool)
    (backend_exists : String → Bool) :
    (is_valid_pkg_filename fname = false →
      ∀ g : String → Option (String × String),
        check_upload_filename g fname = false ∧
        file_upload Unit g overwrite backend_exists (some fname) none =
          (.err 400 false, [])) ∧
    (is_valid_pkg_filename fname = true → guess fname = none →
      file_upload Unit guess overwrite backend_exists (some fname) none =
        (.err 400 false, [])) ∧
    (∀ effs : List (Effect Unit),
      file_upload Unit guess overwrite backend_exists (some fname) none =
        (.ok (), effs) →
      is_valid_pkg_filename fname = true ∧ (guess fname).isSome = true) := by
  refine ⟨?_, ?_, ?_⟩
  · intro hinv g
    have hc : check_upload_filename g fname = false := by
      simp [check_upload_filename, hinv]
    exact ⟨hc, by simp [file_upload, process_upload_files, hc]⟩
  · intro hval hnone
    have hc : check_upload_filename guess fname = false := by
      simp [check_upload_filename, hval, hnone]
    simp [file_upload, process_upload_files, hc]
  · intro effs h
    by_cases hc : check_upload_filename guess fname = true
    · simpa [check_upload_filename] using hc
    · rw [Bool.not_eq_true] at hc
      simp [file_upload, process_upload_files, hc] at h

/-- Claim C1, counterexample to the claim as stated: the filename
`"mypkg-1.0.zip\n"` contains a newline, a character outside the class of
`_bottle_upload_filename_re`, yet `is_valid_pkg_filename` accepts it
(Python's `$` matches just before a trailing newline), so it is *not*
rejected before the parser is consulted: with a parser that accepts it the
whole upload succeeds. -/
theorem upload_filename_validation_cex :
    ('\n' ∈ "mypkg-1.0.zip\n".data ∧ validClass '\n' = false) ∧
    is_valid_pkg_filename "mypkg-1.0.zip\n" = true ∧
    check_upload_filename (fun _ => some ("mypkg", "1.0")) "mypkg-1.0.zip\n" = true ∧
    file_upload Unit (fun _ => some ("mypkg", "1.0")) true (fun _ => false)
      (some "mypkg-1.0.zip\n") none =
      (.ok (), [.add_package "mypkg-1.0.zip\n"]) := by
  refine ⟨⟨?_, ?_⟩, ?_, ?_, ?_⟩ <;> decide

/-- Claim C1, witness: `"bad name!!.zip"` (space outside the class) is
rejected with 400 independently of the parser. -/
theorem upload_filename_validation_witness :
    check_upload_filename (fun _ => none) "bad name!!.zip" = false ∧
    file_upload Unit (fun _ => none) false (fun _ => false)
      (some "bad name!!.zip") none = (.err 400 false, []) :=
  (upload_filename_validation "bad name!!.zip" (fun _ => none) false
    (fun _ => false)).1 (by decide) (fun _ => none)

/-- Claim C2 (confirmed).  For an upload whose filename passes the
filename checks: without the overwrite flag, an already-existing filename
makes the request fail with 409 and no `add_package` effect is performed;
with the overwrite flag, the existence check is skipped (the outcome is
the same for every `backend_exists` oracle) and `add_package` is
performed. -/
theorem upload_overwrite_guard (P : Type)
    (guess : String → Option (String × String)) (backend_exists : String → Bool)
    (fname : String) (hok : check_upload_filename guess fname = true) :
    (backend_exists fname = true →
      file_upload P guess false backend_exists (some fname) none =
        (.err 409 false, [])) ∧
    (∀ bx2 : String → Bool,
      file_upload P guess true bx2 (some fname) none =
        (.ok (), [Effect.add_package fname])) := by
  constructor
  · intro hex
    simp [file_upload, process_upload_files, hok, hex]
  · intro bx2
    simp [file_upload, process_upload_files, hok]

/-- Claim C2, witness: uploading `mypkg-1.0.0.tar.gz` when it already
exists yields 409 with no mutation; with overwrite it is re-added. -/
theorem upload_overwrite_guard_witness :
    file_upload Unit (fun _ => some ("mypkg", "1.0.0")) false (fun _ => true)
      (some "mypkg-1.0.0.tar.gz") none = (.err 409 false, []) ∧
    file_upload Unit (fun _ => some ("mypkg", "1.0.0")) true (fun _ => true)
      (some "mypkg-1.0.0.tar.gz") none =
      (.ok (), [Effect.add_package "mypkg-1.0.0.tar.gz"]) :=
  ⟨(upload_overwrite_guard Unit (fun _ => some ("mypkg", "1.0.0")) (fun _ => true)
      "mypkg-1.0.0.tar.gz" (by decide)).1 rfl,
   (upload_overwrite_guard Unit (fun _ => some ("mypkg", "1.0.0")) (fun _ => true)
      "mypkg-1.0.0.tar.gz" (by decide)).2 (fun _ => true)⟩

/-- Claim C5 (confirmed).  A supplied gpg_signature whose filename is not
exactly the content filename with ".asc" appended makes the request fail
with 400 before any file is processed; a signature with the exact expected
name, or no signature at all, lets the request proceed to the per-file
processing (no signature check is applied in the latter case). -/
theorem upload_signature_check (P : Type)
    (guess : String → Option (String × String)) (overwrite : Bool)
    (backend_exists : String → Bool) (pk : String) :
    (∀ s : String, s ≠ pk ++ ".asc" →
      file_upload P guess overwrite backend_exists (some pk) (some s) =
        (.err 400 false, [])) ∧
    (file_upload P guess overwrite backend_exists (some pk)
        (some (pk ++ ".asc")) =
      process_upload_files P guess overwrite backend_exists [pk, pk ++ ".asc"]) ∧
    (file_upload P guess overwrite backend_exists (some pk) none =
      process_upload_files P guess overwrite backend_exists [pk]) := by
  refine ⟨?_, ?_, ?_⟩
  · intro s hs
    have h : pk ++ ".asc" ≠ s := fun h => hs h.symm
    simp [file_upload, h]
  · simp [file_upload]
  · rfl

/-- Claim C5, witness: an unrelated signature name is rejected with 400. -/
theorem upload_signature_check_witness :
    file_upload Unit (fun _ => some ("mypkg", "1.0")) true (fun _ => false)
      (some "mypkg-1.0.tar.gz") (some "other.asc") = (.err 400 false, []) :=
  (upload_signature_check Unit (fun _ => some ("mypkg", "1.0")) true
    (fun _ => false) "mypkg-1.0.tar.gz").1 "other.asc" (by decide)

/-- Claim C6 (confirmed).  `remove_pkg` fails with 400 when the name or
version field is missing, fails with 404 when `find_version` returns no
entries (removal of an absent target is a caller error), and otherwise
performs `remove_package` once for every returned entry. -/
theorem remove_pkg_behavior (P : Type) (find_version : String → String → List P)
    (name version : Option String) :
    ((name = none ∨ version = none) →
      remove_pkg P find_version name version = (.err 400 false, [])) ∧
    (∀ n v : String, name = some n → version = some v → n ≠ "" → v ≠ "" →
      (find_version n v = [] →
        remove_pkg P find_version name version = (.err 404 false, [])) ∧
      (find_version n v ≠ [] →
        remove_pkg P find_version name version =
          (.ok (), (find_version n v).map Effect.remove_package))) := by
  constructor
  · rintro (rfl | rfl) <;> simp [remove_pkg, falsyField]
  · intro n v hn hv hne hve
    subst hn; subst hv
    have h1 : falsyField (some n) = false := by
      simp only [falsyField, Bool.eq_false_iff]
      intro he
      exact hne ((String.isEmpty_iff n).mp he)
    have h2 : falsyField (some v) = false := by
      simp only [falsyField, Bool.eq_false_iff]
      intro he
      exact hve ((String.isEmpty_iff v).mp he)
    constructor
    · intro hfv
      simp [remove_pkg, h1, h2, hfv]
    · intro hfv
      cases hcase : find_version n v with
      | nil => exact absurd hcase hfv
      | cons p ps =>
        simp [remove_pkg, h1, h2, hcase]

/-- Claim C6, witness: missing fields give 400, an absent target gives
404, a present target is removed entry by entry. -/
theorem remove_pkg_behavior_witness :
    remove_pkg Nat (fun _ _ => [7]) none (some "1.0") = (.err 400 false, []) ∧
    remove_pkg Nat (fun _ _ => []) (some "mypkg") (some "1.0") =
      (.err 404 false, []) ∧
    remove_pkg Nat (fun _ _ => [7, 8]) (some "mypkg") (some "1.0") =
      (.ok (), [Effect.remove_package 7, Effect.remove_package 8]) :=
  ⟨(remove_pkg_behavior Nat (fun _ _ => [7]) none (some "1.0")).1 (Or.inl rfl),
   ((remove_pkg_behavior Nat (fun _ _ => []) (some "mypkg") (some "1.0")).2
      "mypkg" "1.0" rfl rfl (by decide) (by decide)).1 rfl,
   ((remove_pkg_behavior Nat (fun _ _ => [7, 8]) (some "mypkg") (some "1.0")).2
      "mypkg" "1.0" rfl rfl (by decide) (by decide)).2 (by decide)⟩

/-- Claim C8 (confirmed).  For a handler wrapped by `auth` with action A:
when A is in the configured authenticate set, absent credentials or an
absent password yield 401 with the WWW-Authenticate Basic header, failing
credentials yield 403, and only passing credentials reach the wrapped
handler (the outcome then equals the handler's outcome); when A is not in
the set, the handler runs with no credential check. -/
theorem auth_wrap_behavior (α : Type) (authenticate : List String)
    (auther : String → String → Bool) (action : String)
    (creds : Option (String × Option String)) (result : HResp α) :
    (action ∈ authenticate →
      (creds = none →
        auth_wrap α authenticate auther action creds result = .err 401 true) ∧
      (∀ u : String, creds = some (u, none) →
        auth_wrap α authenticate auther action creds result = .err 401 true) ∧
      (∀ u p : String, creds = some (u, some p) → auther u p = false →
        auth_wrap α authenticate auther action creds result = .err 403 false) ∧
      (∀ u p : String, creds = some (u, some p) → auther u p = true →
        auth_wrap α authenticate auther action creds result = result)) ∧
    (action ∉ authenticate →
      auth_wrap α authenticate auther action creds result = result) := by
  constructor
  · intro hmem
    refine ⟨?_, ?_, ?_, ?_⟩
    · intro h; subst h; simp [auth_wrap, hmem]
    · intro u h; subst h; simp [auth_wrap, hmem]
    · intro u p h hf; subst h; simp [auth_wrap, hmem, hf]
    · intro u p h ht; subst h; simp [auth_wrap, hmem, ht]
  · intro hmem
    simp [auth_wrap, hmem]

/-- Claim C8, witness: with `"update"` protected, no credentials give 401
with the Basic challenge, wrong credentials give 403, right credentials
reach the handler; an unprotected action reaches the handler directly. -/
theorem auth_wrap_behavior_witness :
    auth_wrap Nat ["update"] (fun u p => u = "a" && p = "b") "update" none
      (.ok 5) = .err 401 true ∧
    auth_wrap Nat ["update"] (fun u p => u = "a" && p = "b") "update"
      (some ("a", some "x")) (.ok 5) = .err 403 false ∧
    auth_wrap Nat ["update"] (fun u p => u = "a" && p = "b") "update"
      (some ("a", some "b")) (.ok 5) = .ok 5 ∧
    auth_wrap Nat ["update"] (fun u p => u = "a" && p = "b") "download" none
      (.ok 5) = .ok 5 :=
  ⟨((auth_wrap_behavior Nat ["update"] (fun u p => u = "a" && p = "b") "update"
      none (.ok 5)).1 (by decide)).1 rfl,
   ((auth_wrap_behavior Nat ["update"] (fun u p => u = "a" && p = "b") "update"
      (some ("a", some "x")) (.ok 5)).1 (by decide)).2.2.1 "a" "x" rfl (by decide),
   ((auth_wrap_behavior Nat ["update"] (fun u p => u = "a" && p = "b") "update"
      (some ("a", some "b")) (.ok 5)).1 (by decide)).2.2.2 "a" "b" rfl (by decide),
   (auth_wrap_behavior Nat ["update"] (fun u p => u = "a" && p = "b") "download"
      none (.ok 5)).2 (by decide)⟩

/-- Claim C9 (confirmed).  The POST `/` dispatcher: the actions "verify"
and "submit" succeed with an empty effect trace (no backend mutation); an
action outside the five known ones fails with 400 and an empty trace; a
missing `:action` field fails with 400 and an empty trace. -/
theorem update_dispatch (P : Type) (guess : String → Option (String × String))
    (overwrite : Bool) (backend_exists : String → Bool)
    (find_version : String → String → List P) (doc_content : Option Bool)
    (name version content gpg_signature : Option String) :
    (update P guess overwrite backend_exists find_version (some "verify")
        doc_content name version content gpg_signature = (.ok "", []) ∧
     update P guess overwrite backend_exists find_version (some "submit")
        doc_content name version content gpg_signature = (.ok "", [])) ∧
    (∀ a : String,
      a ∉ (["verify", "submit", "doc_upload", "remove_pkg", "file_upload"] :
            List String) →
      update P guess overwrite backend_exists find_version (some a)
        doc_content name version content gpg_signature = (.err 400 false, [])) ∧
    update P guess overwrite backend_exists find_version none doc_content
      name version content gpg_signature = (.err 400 false, []) := by
  refine ⟨⟨?_, ?_⟩, ?_, ?_⟩
  · simp [update]
  · simp [update]
  · intro a ha
    simp only [List.mem_cons, List.not_mem_nil, or_false, not_or] at ha
    obtain ⟨h1, h2, h3, h4, h5⟩ := ha
    simp [update, h1, h2, h3, h4, h5]
  · rfl

/-- Claim C9, witness: "verify" succeeds with no mutation, an unknown
action and a missing action field give 400 with no mutation. -/
theorem update_dispatch_witness :
    update Nat (fun _ => none) false (fun _ => false) (fun _ _ => [])
      (some "verify") none none none none none = (.ok "", []) ∧
    update Nat (fun _ => none) false (fun _ => false) (fun _ _ => [])
      (some "frobnicate") none none none none none = (.err 400 false, []) ∧
    update Nat (fun _ => none) false (fun _ => false) (fun _ _ => [])
      none none none none none none = (.err 400 false, []) :=
  ⟨(update_dispatch Nat (fun _ => none) false (fun _ => false) (fun _ _ => [])
      none none none none none).1.1,
   (update_dispatch Nat (fun _ => none) false (fun _ => false) (fun _ _ => [])
      none none none none none).2.1 "frobnicate" (by decide),
   (update_dispatch Nat (fun _ => none) false (fun _ => false) (fun _ _ => [])
      none none none none none).2.2⟩

/-- Claim C3 (confirmed, with the normalizer modelled from the spec).
For `/simple/:project/` and `/:project/json`: a project segment that
differs from its normalized form is 301-redirected to the path built from
the normalized name, with no backend lookup (the redirect holds for every
backend query function, which the theorem quantifies over); a segment
already in normalized form is served directly (the sorted listing for
`simple`, the JSON document for `json_info`) when the project has
packages. -/
theorem normalized_redirect {V : Type} [LinearOrder V]
    (fpp fpp2 : String → List (PkgFile V)) (disable_fallback : Bool)
    (fallback_url : String) (fallback_code : Nat) (project : String) :
    (normalize_pkgname_for_url project ≠ project →
      simple fpp disable_fallback fallback_url fallback_code project =
        .redirect 301 ("/simple/" ++ normalize_pkgname_for_url project ++ "/") ∧
      json_info fpp2 project =
        .redirect 301 ("/" ++ normalize_pkgname_for_url project ++ "/json")) ∧
    (normalize_pkgname_for_url project = project →
      (fpp project ≠ [] →
        simple fpp disable_fallback fallback_url fallback_code project =
          .ok (insertionSort pkgLe (fpp project))) ∧
      (fpp2 project ≠ [] → ∃ j : ProjectJson, json_info fpp2 project = .ok j)) := by
  constructor
  · intro hne
    have h : project ≠ normalize_pkgname_for_url project := fun hh => hne hh.symm
    exact ⟨by simp [simple, h], by simp [json_info, h]⟩
  · intro heq
    constructor
    · intro hnonempty
      have hni : insertionSort pkgLe (fpp project) ≠ [] := by
        intro h0
        apply hnonempty
        have hp := perm_insertionSort pkgLe (fpp project)
        rw [h0] at hp
        exact hp.symm.eq_nil
      obtain ⟨q, qs, hS⟩ := List.exists_cons_of_ne_nil hni
      simp [simple, heq, hS]
    · intro hnonempty
      have hni : insertionSort pkgGe (fpp2 project) ≠ [] := by
        intro h0
        apply hnonempty
        have hp := perm_insertionSort pkgGe (fpp2 project)
        rw [h0] at hp
        exact hp.symm.eq_nil
      obtain ⟨q, qs, hS⟩ := List.exists_cons_of_ne_nil hni
      exact ⟨⟨q.version, build_releases (q :: qs)⟩, by simp [json_info, heq, hS]⟩

/-- A concrete package entry over `V := Nat` for the witnesses. -/
def samplePkg (rel ver : String) (pv : Nat) : PkgFile Nat := ⟨rel, ver, pv, rel⟩

/-- Claim C3, witness: `/simple/My.Pkg/` and `/My.Pkg/json` redirect to the
normalized `my-pkg` paths; a normalized segment with packages is served. -/
theorem normalized_redirect_witness :
    simple (fun _ => [samplePkg "my-pkg-1.0.tar.gz" "1.0" 100]) true "u" 302
        "My.Pkg" = .redirect 301 "/simple/my-pkg/" ∧
    json_info (fun _ => [samplePkg "my-pkg-1.0.tar.gz" "1.0" 100]) "My.Pkg" =
      .redirect 301 "/my-pkg/json" ∧
    simple (fun _ => [samplePkg "my-pkg-1.0.tar.gz" "1.0" 100]) true "u" 302
        "my-pkg" =
      .ok (insertionSort pkgLe
        ((fun _ => [samplePkg "my-pkg-1.0.tar.gz" "1.0" 100]) "my-pkg")) :=
  ⟨((normalized_redirect (fun _ => [samplePkg "my-pkg-1.0.tar.gz" "1.0" 100])
      (fun _ => [samplePkg "my-pkg-1.0.tar.gz" "1.0" 100]) true "u" 302
      "My.Pkg").1 (by decide)).1,
   ((normalized_redirect (fun _ => [samplePkg "my-pkg-1.0.tar.gz" "1.0" 100])
      (fun _ => [samplePkg "my-pkg-1.0.tar.gz" "1.0" 100]) true "u" 302
      "My.Pkg").1 (by decide)).2,
   ((normalized_redirect (fun _ => [samplePkg "my-pkg-1.0.tar.gz" "1.0" 100])
      (fun _ => [samplePkg "my-pkg-1.0.tar.gz" "1.0" 100]) true "u" 302
      "my-pkg").2 (by decide)).1 (by decide)⟩

/-- Claim C4 (confirmed).  For a normalized project with at least one
package, `/simple/:project/` serves exactly the entries returned by
`find_project_packages` (a permutation of them), ordered ascending by
`parsed_version` with ties broken by `relfn`. -/
theorem simple_listing_sorted {V : Type} [LinearOrder V]
    (fpp : String → List (PkgFile V)) (disable_fallback : Bool)
    (fallback_url : String) (fallback_code : Nat) (project : String)
    (hnorm : normalize_pkgname_for_url project = project)
    (hne : fpp project ≠ []) :
    simple fpp disable_fallback fallback_url fallback_code project =
      .ok (insertionSort pkgLe (fpp project)) ∧
    (insertionSort pkgLe (fpp project)).Perm (fpp project) ∧
    (insertionSort pkgLe (fpp project)).Pairwise (fun a b =>
      a.parsed_version < b.parsed_version ∨
        (a.parsed_version = b.parsed_version ∧ strle a.relfn b.relfn = true)) := by
  refine ⟨?_, perm_insertionSort pkgLe (fpp project), ?_⟩
  · have hni : insertionSort pkgLe (fpp project) ≠ [] := by
      intro h0
      apply hne
      have hp := perm_insertionSort pkgLe (fpp project)
      rw [h0] at hp
      exact hp.symm.eq_nil
    obtain ⟨q, qs, hS⟩ := List.exists_cons_of_ne_nil hni
    simp [simple, hnorm, hS]
  · have hs := sorted_insertionSort pkgLe pkgLe_trans pkgLe_total (fpp project)
    exact hs.imp (fun h => (pkgLe_iff _ _).mp h)

/-- Claim C4, witness: after uploading `mypkg-1.0.0.tar.gz` then
`mypkg-1.0.1.tar.gz` (backend returns them newest-first), the listing
contains both, in ascending version order. -/
theorem simple_listing_sorted_witness :
    simple (fun _ => [samplePkg "mypkg-1.0.1.tar.gz" "1.0.1" 101,
                      samplePkg "mypkg-1.0.0.tar.gz" "1.0.0" 100])
        true "u" 302 "mypkg" =
      .ok [samplePkg "mypkg-1.0.0.tar.gz" "1.0.0" 100,
           samplePkg "mypkg-1.0.1.tar.gz" "1.0.1" 101] := by
  have h := simple_listing_sorted
    (fun _ => [samplePkg "mypkg-1.0.1.tar.gz" "1.0.1" 101,
               samplePkg "mypkg-1.0.0.tar.gz" "1.0.0" 100])
    true "u" 302 "mypkg" (by decide) (by decide)
  rw [h.1]
  decide

/-- Claim C7 (confirmed).  For a normalized project: with no packages,
`/:project/json` fails with 404; with packages, the response's
`info.version` is the version string of a package whose `parsed_version`
is maximal among the project's packages. -/
theorem json_latest_version {V : Type} [LinearOrder V]
    (fpp : String → List (PkgFile V)) (project : String)
    (hnorm : normalize_pkgname_for_url project = project) :
    (fpp project = [] → json_info fpp project = .err 404 false) ∧
    (fpp project ≠ [] → ∃ p : PkgFile V, p ∈ fpp project ∧
      (∃ j : ProjectJson,
        json_info fpp project = .ok j ∧ j.info_version = p.version) ∧
      ∀ q ∈ fpp project, q.parsed_version ≤ p.parsed_version) := by
  constructor
  · intro hempty
    have hS : insertionSort pkgGe (fpp project) = [] := by rw [hempty]; rfl
    simp [json_info, hnorm, hS]
  · intro hne
    have hni : insertionSort pkgGe (fpp project) ≠ [] := by
      intro h0
      apply hne
      have hp := perm_insertionSort pkgGe (fpp project)
      rw [h0] at hp
      exact hp.symm.eq_nil
    obtain ⟨p, rest, hS⟩ := List.exists_cons_of_ne_nil hni
    have hperm := perm_insertionSort pkgGe (fpp project)
    rw [hS] at hperm
    refine ⟨p, hperm.mem_iff.mp (List.mem_cons_self p rest),
      ⟨⟨p.version, build_releases (p :: rest)⟩,
        by simp [json_info, hnorm, hS], rfl⟩, ?_⟩
    intro q hq
    have hq2 : q ∈ p :: rest := hperm.mem_iff.mpr hq
    rcases List.mem_cons.mp hq2 with hqp | hqr
    · rw [hqp]
    · have hsorted := sorted_insertionSort pkgGe pkgGe_trans pkgGe_total (fpp project)
      rw [hS, List.pairwise_cons] at hsorted
      have h3 := hsorted.1 q hqr
      simpa [pkgGe] using h3

/-- Claim C7, witness: an empty project 404s; for a project with versions
1.0.0 and 1.0.1 the served `info.version` is that of the maximal parsed
version. -/
theorem json_latest_version_witness :
    json_info (fun _ => ([] : List (PkgFile Nat))) "mypkg" = .err 404 false ∧
    ∃ p : PkgFile Nat,
      p ∈ [samplePkg "mypkg-1.0.0.tar.gz" "1.0.0" 100,
           samplePkg "mypkg-1.0.1.tar.gz" "1.0.1" 101] ∧
      (∃ j : ProjectJson,
        json_info (fun _ => [samplePkg "mypkg-1.0.0.tar.gz" "1.0.0" 100,
                             samplePkg "mypkg-1.0.1.tar.gz" "1.0.1" 101])
            "mypkg" = .ok j ∧ j.info_version = p.version) ∧
      ∀ q ∈ [samplePkg "mypkg-1.0.0.tar.gz" "1.0.0" 100,
             samplePkg "mypkg-1.0.1.tar.gz" "1.0.1" 101],
        q.parsed_version ≤ p.parsed_version :=
  ⟨(json_latest_version (fun _ => ([] : List (PkgFile Nat))) "mypkg"
      (by decide)).1 rfl,
   (json_latest_version (fun _ => [samplePkg "mypkg-1.0.0.tar.gz" "1.0.0" 100,
                                   samplePkg "mypkg-1.0.1.tar.gz" "1.0.1" 101])
      "mypkg" (by decide)).2 (by decide)⟩

/-- Helper: the value of `json_info` on a normalized project, exposing the
match on the descending-sorted package list. -/
theorem json_info_eq {V : Type} [LinearOrder V]
    (fpp : String → List (PkgFile V)) (project : String)
    (hnorm : normalize_pkgname_for_url project = project) :
    json_info fpp project =
      match insertionSort pkgGe (fpp project) with
      | [] => .err 404 false
      | p :: rest => .ok ⟨p.version, build_releases (p :: rest)⟩ := by
  simp [json_info, hnorm]

/-- Claim C10 (confirmed).  In every `/:project/json` response the
releases map binds each distinct version string exactly once (its keys are
nodup), and the single URL bound to a version is that of the *last*
package with that version in the descending-`parsed_version` iteration:
each later entry overwrites the earlier one for that version key.  A
version string not carried by any package is absent. -/
theorem json_releases_unique {V : Type} [LinearOrder V]
    (fpp : String → List (PkgFile V)) (project : String) (j : ProjectJson)
    (hnorm : normalize_pkgname_for_url project = project)
    (hok : json_info fpp project = .ok j) :
    ((j.releases.map Prod.fst).Nodup) ∧
    (∀ v : String,
      assocFind j.releases v =
        ((insertionSort pkgGe (fpp project)).reverse.find?
            (fun x => x.version == v)).map
          (fun x => "../../packages/" ++ x.relfn)) := by
  rw [json_info_eq fpp project hnorm] at hok
  cases hS : insertionSort pkgGe (fpp project) with
  | nil =>
    rw [hS] at hok
    exact absurd hok (by simp)
  | cons p rest =>
    rw [hS] at hok
    obtain rfl := (HResp.ok.inj hok).symm
    constructor
    · exact nodup_keys_build_releases (p :: rest)
    · intro v
      exact assocFind_build_releases (p :: rest) v

/-- Claim C10, witness: source archive and wheel of version 2.0.0 plus a
1.0.0 archive; the releases keys are nodup and version 2.0.0 is bound to
the wheel, the later entry of the descending iteration. -/
theorem json_releases_unique_witness :
    (((⟨"2.0.0",
        [("2.0.0", "../../packages/mypkg-2.0.0-py3-none-any.whl"),
         ("1.0.0", "../../packages/mypkg-1.0.0.tar.gz")]⟩ :
        ProjectJson).releases.map Prod.fst).Nodup) ∧
    assocFind
        [("2.0.0", "../../packages/mypkg-2.0.0-py3-none-any.whl"),
         ("1.0.0", "../../packages/mypkg-1.0.0.tar.gz")] "2.0.0" =
      some "../../packages/mypkg-2.0.0-py3-none-any.whl" := by
  have h := json_releases_unique
    (fun _ => [samplePkg "mypkg-2.0.0.tar.gz" "2.0.0" 200,
               samplePkg "mypkg-2.0.0-py3-none-any.whl" "2.0.0" 200,
               samplePkg "mypkg-1.0.0.tar.gz" "1.0.0" 100])
    "mypkg"
    ⟨"2.0.0",
      [("2.0.0", "../../packages/mypkg-2.0.0-py3-none-any.whl"),
       ("1.0.0", "../../packages/mypkg-1.0.0.tar.gz")]⟩
    (by decide) (by decide)
  refine ⟨h.1, ?_⟩
  rw [h.2 "2.0.0"]
  decide
